import Mathlib

set_option maxRecDepth 20000

/-!
Verification of the structural chunk-extraction subsystem
(`server/app/parser/tools/ast_chunker.py` and the AST-chunking loop of
`server/app/parser/ast_parser.py`).

Strings are modelled through their character lists (`String.data`); the
Python operations `str.split('\n')`, `'\n'.join`, `str.strip()` truthiness,
slicing and `str.upper()` are given explicit executable models below.
-/

/-- Models Python `content.split('\n')`: split the character list at every
newline; yields one (possibly empty) part more than the number of newlines. -/
def pySplitLines (s : String) : List String :=
  (s.data.splitOn '\n').map (fun l => String.mk l)

/-- Models Python `'\n'.join(lines)`. -/
def pyJoinLines (l : List String) : String :=
  String.mk (List.intercalate ['\n'] (l.map String.data))

/-- Models the truthiness of Python `s.strip()`: `True` exactly when `s`
contains a character that is not whitespace. -/
def stripTruthy (s : String) : Bool :=
  s.data.any (fun c => !c.isWhitespace)

/-- Models Python slicing `content[a:b]` (as in `content[node.start_byte:node.end_byte]`,
which indexes the `str` by position). -/
def pySlice (s : String) (a b : Nat) : String :=
  String.mk ((s.data.drop a).take (b - a))

/-- Models Python `s.upper()`. -/
def pyUpper (s : String) : String :=
  String.mk (s.data.map Char.toUpper)

/-- The extension table of `ASTChunker._init_parsers` (`language_configs`,
ast_chunker.py lines 33-51): the keys of `self.parsers` when every grammar
module loads successfully. -/
def supportedExtensions : List String :=
  [".py", ".js", ".jsx", ".ts", ".tsx", ".java", ".go", ".c", ".cpp", ".cc",
   ".cxx", ".h", ".hpp", ".rs", ".rb", ".php", ".swift"]

/-- The marker line prefixed to every fallback chunk
(`f"// Fallback chunk for {file_extension}\n"`, ast_chunker.py lines 337/344). -/
def fallbackMarker (file_extension : String) : String :=
  "// Fallback chunk for " ++ file_extension ++ "\n"

/-- The loop of `ASTChunker._chunk_with_fallback` (ast_chunker.py lines 332-344):
state is `(remaining lines, current_chunk, chunks)`; a window is flushed as soon
as `current_chunk` reaches 50 lines, windows whose text strips to blank are not
appended, and the remaining lines are flushed after the loop. -/
def fallbackLoop (file_extension : String) :
    List String → List String → List String → List String
  | [], current_chunk, chunks =>
      if current_chunk ≠ [] then
        let chunk_text := pyJoinLines current_chunk
        if stripTruthy chunk_text then
          chunks ++ [fallbackMarker file_extension ++ chunk_text]
        else chunks
      else chunks
  | line :: rest, current_chunk, chunks =>
      let cur := current_chunk ++ [line]
      if cur.length ≥ 50 then
        let chunk_text := pyJoinLines cur
        fallbackLoop file_extension rest []
          (if stripTruthy chunk_text then
            chunks ++ [fallbackMarker file_extension ++ chunk_text]
          else chunks)
      else fallbackLoop file_extension rest cur chunks

/-- `ASTChunker._chunk_with_fallback` (ast_chunker.py lines 324-346). -/
def chunkWithFallback (content file_extension : String) : List String :=
  let chunks := fallbackLoop file_extension (pySplitLines content) [] []
  if chunks ≠ [] then chunks else [content]

/-- The successive line windows the fallback loop flushes: same control flow as
`fallbackLoop`, collecting the line groups instead of the formatted chunks. -/
def windowsLoop : List String → List String → List (List String) → List (List String)
  | [], current_chunk, acc => if current_chunk ≠ [] then acc ++ [current_chunk] else acc
  | line :: rest, current_chunk, acc =>
      let cur := current_chunk ++ [line]
      if cur.length ≥ 50 then windowsLoop rest [] (acc ++ [cur])
      else windowsLoop rest cur acc

/-- The windows of at most 50 lines that `_chunk_with_fallback` cuts `content` into. -/
def fallbackWindows (content : String) : List (List String) :=
  windowsLoop (pySplitLines content) [] []

/-- Window to optional chunk: the body of the loop's flush step. -/
def mkFallbackChunk (file_extension : String) (w : List String) : Option String :=
  let chunk_text := pyJoinLines w
  if stripTruthy chunk_text then some (fallbackMarker file_extension ++ chunk_text)
  else none

/-- Removes the fallback marker line from a fallback chunk. -/
def stripFallbackMarker (file_extension : String) (chunk : String) : String :=
  chunk.drop (fallbackMarker file_extension).length

mutual

/-- A parsed syntax-tree node as the chunker reads it from tree-sitter:
`node.type`, `node.start_byte`, `node.end_byte`, `node.start_point[0]`,
`node.end_point[0]`, `node.children`. -/
inductive PNode : Type where
  | mk (kind : String) (start_byte end_byte start_row end_row : Nat)
       (children : PForest)

/-- The ordered children of a node. -/
inductive PForest : Type where
  | nil : PForest
  | cons (n : PNode) (f : PForest) : PForest

end

def PNode.kind : PNode → String
  | .mk k _ _ _ _ _ => k

def PNode.startByte : PNode → Nat
  | .mk _ sb _ _ _ _ => sb

def PNode.endByte : PNode → Nat
  | .mk _ _ eb _ _ _ => eb

def PNode.children : PNode → PForest
  | .mk _ _ _ _ _ cs => cs

def PNode.startRow : PNode → Nat
  | .mk _ _ _ sr _ _ => sr

def PNode.endRow : PNode → Nat
  | .mk _ _ _ _ er _ => er

/-- A recorded structure (`structures[structure_type].append({...})`,
ast_chunker.py lines 139-146). -/
structure SMatch where
  typ : String
  text : String
  start_line : Nat
  end_line : Nat
  start_byte : Nat
  end_byte : Nat
deriving DecidableEq

/-- `ASTChunker._get_python_structure_type` (ast_chunker.py lines 181-193). -/
def getPythonStructureType (node_type : String) : Option String :=
  if node_type ∈ ["function_definition", "async_function_definition"] then some "functions"
  else if node_type ∈ ["class_definition"] then some "classes"
  else if node_type ∈ ["import_statement", "import_from_statement"] then some "imports"
  else if node_type ∈ ["comment"] then some "comments"
  else if node_type ∈ ["module"] then some "modules"
  else none

/-- `ASTChunker._get_javascript_structure_type` (ast_chunker.py lines 195-211). -/
def getJavascriptStructureType (node_type : String) : Option String :=
  if node_type ∈ ["function_declaration", "function_expression", "arrow_function",
      "method_definition"] then some "functions"
  else if node_type ∈ ["class_declaration", "class_expression"] then some "classes"
  else if node_type ∈ ["interface_declaration"] then some "interfaces"
  else if node_type ∈ ["enum_declaration"] then some "enums"
  else if node_type ∈ ["import_statement", "export_statement"] then some "imports"
  else if node_type ∈ ["comment"] then some "comments"
  else if node_type ∈ ["program"] then some "modules"
  else none

/-- `ASTChunker._get_java_structure_type` (ast_chunker.py lines 213-225). -/
def getJavaStructureType (node_type : String) : Option String :=
  if node_type ∈ ["method_declaration", "constructor_declaration"] then some "functions"
  else if node_type ∈ ["class_declaration", "interface_declaration",
      "enum_declaration"] then some "classes"
  else if node_type ∈ ["import_declaration"] then some "imports"
  else if node_type ∈ ["comment"] then some "comments"
  else if node_type ∈ ["program"] then some "modules"
  else none

/-- `ASTChunker._get_go_structure_type` (ast_chunker.py lines 227-239). -/
def getGoStructureType (node_type : String) : Option String :=
  if node_type ∈ ["function_declaration", "method_declaration"] then some "functions"
  else if node_type ∈ ["type_declaration", "struct_type", "interface_type"] then some "classes"
  else if node_type ∈ ["import_declaration"] then some "imports"
  else if node_type ∈ ["comment"] then some "comments"
  else if node_type ∈ ["source_file"] then some "modules"
  else none

/-- `ASTChunker._get_c_structure_type` (ast_chunker.py lines 241-253). -/
def getCStructureType (node_type : String) : Option String :=
  if node_type ∈ ["function_definition", "method_definition"] then some "functions"
  else if node_type ∈ ["class_specifier", "struct_specifier", "union_specifier"] then
    some "classes"
  else if node_type ∈ ["preproc_include", "preproc_import"] then some "imports"
  else if node_type ∈ ["comment"] then some "comments"
  else if node_type ∈ ["translation_unit"] then some "modules"
  else none

/-- `ASTChunker._get_rust_structure_type` (ast_chunker.py lines 255-267).
Note `"impl_item"` appears in the function-like list (line 257) and in the
type-like list (line 259); the first `if` wins. -/
def getRustStructureType (node_type : String) : Option String :=
  if node_type ∈ ["function_item", "impl_item"] then some "functions"
  else if node_type ∈ ["struct_item", "enum_item", "trait_item", "impl_item"] then
    some "classes"
  else if node_type ∈ ["use_declaration"] then some "imports"
  else if node_type ∈ ["comment"] then some "comments"
  else if node_type ∈ ["source_file"] then some "modules"
  else none

/-- `ASTChunker._get_ruby_structure_type` (ast_chunker.py lines 269-279). -/
def getRubyStructureType (node_type : String) : Option String :=
  if node_type ∈ ["method", "singleton_method"] then some "functions"
  else if node_type ∈ ["class", "module"] then some "classes"
  else if node_type ∈ ["comment"] then some "comments"
  else if node_type ∈ ["program"] then some "modules"
  else none

/-- `ASTChunker._get_php_structure_type` (ast_chunker.py lines 281-293). -/
def getPhpStructureType (node_type : String) : Option String :=
  if node_type ∈ ["method_declaration", "function_definition"] then some "functions"
  else if node_type ∈ ["class_declaration", "interface_declaration",
      "trait_declaration"] then some "classes"
  else if node_type ∈ ["use_declaration"] then some "imports"
  else if node_type ∈ ["comment"] then some "comments"
  else if node_type ∈ ["program"] then some "modules"
  else none

/-- `ASTChunker._get_swift_structure_type` (ast_chunker.py lines 295-307). -/
def getSwiftStructureType (node_type : String) : Option String :=
  if node_type ∈ ["function_declaration", "initializer_declaration"] then some "functions"
  else if node_type ∈ ["class_declaration", "struct_declaration", "protocol_declaration",
      "enum_declaration"] then some "classes"
  else if node_type ∈ ["import_declaration"] then some "imports"
  else if node_type ∈ ["comment"] then some "comments"
  else if node_type ∈ ["source_file"] then some "modules"
  else none

/-- `ASTChunker._get_structure_type` (ast_chunker.py lines 155-179):
dispatch on the file extension. -/
def getStructureType (node_type file_extension : String) : Option String :=
  if file_extension ∈ [".py"] then getPythonStructureType node_type
  else if file_extension ∈ [".js", ".jsx", ".ts", ".tsx"] then
    getJavascriptStructureType node_type
  else if file_extension ∈ [".java"] then getJavaStructureType node_type
  else if file_extension ∈ [".go"] then getGoStructureType node_type
  else if file_extension ∈ [".c", ".cpp", ".cc", ".cxx", ".h", ".hpp"] then
    getCStructureType node_type
  else if file_extension ∈ [".rs"] then getRustStructureType node_type
  else if file_extension ∈ [".rb"] then getRubyStructureType node_type
  else if file_extension ∈ [".php"] then getPhpStructureType node_type
  else if file_extension ∈ [".swift"] then getSwiftStructureType node_type
  else none

/-- The `structures` dict of `_extract_structures` (ast_chunker.py lines 118-127):
all eight keys are created up front by the dict literal, so iteration order is
the literal order, independent of the traversal. -/
structure Structures where
  functions : List SMatch
  classes : List SMatch
  modules : List SMatch
  interfaces : List SMatch
  enums : List SMatch
  constants : List SMatch
  imports : List SMatch
  comments : List SMatch
deriving DecidableEq

/-- The dict-literal key order. -/
def categoryKeys : List String :=
  ["functions", "classes", "modules", "interfaces", "enums", "constants",
   "imports", "comments"]

/-- The empty `structures` dict. -/
def emptyStructures : Structures := ⟨[], [], [], [], [], [], [], []⟩

/-- `structures.items()`: pairs in dict-literal key order. -/
def Structures.items (st : Structures) : List (String × List SMatch) :=
  [("functions", st.functions), ("classes", st.classes), ("modules", st.modules),
   ("interfaces", st.interfaces), ("enums", st.enums), ("constants", st.constants),
   ("imports", st.imports), ("comments", st.comments)]

/-- `structures[structure_type].append(m)`: append to the named key's list;
a name that is not a key leaves the dict unchanged (the traversal guards the
append with `structure_type in structures`). -/
def Structures.add (st : Structures) (t : String) (m : SMatch) : Structures :=
  if t = "functions" then { st with functions := st.functions ++ [m] }
  else if t = "classes" then { st with classes := st.classes ++ [m] }
  else if t = "modules" then { st with modules := st.modules ++ [m] }
  else if t = "interfaces" then { st with interfaces := st.interfaces ++ [m] }
  else if t = "enums" then { st with enums := st.enums ++ [m] }
  else if t = "constants" then { st with constants := st.constants ++ [m] }
  else if t = "imports" then { st with imports := st.imports ++ [m] }
  else if t = "comments" then { st with comments := st.comments ++ [m] }
  else st

/-- The record built at ast_chunker.py lines 139-146. -/
def mkSMatch (content : String) : PNode → SMatch
  | .mk k sb eb sr er _ =>
      { typ := k, text := pySlice content sb eb, start_line := sr + 1,
        end_line := er + 1, start_byte := sb, end_byte := eb }

mutual

/-- The inner `traverse(node, depth)` of `ASTChunker._extract_structures`
(ast_chunker.py lines 129-150), with the `structures` dict threaded as state. -/
def traverseNode (content file_extension : String) :
    PNode → Nat → Structures → Structures
  | .mk k sb eb sr er cs, depth, st =>
      if depth > 10 then st
      else
        let st1 :=
          match getStructureType k file_extension with
          | some structure_type =>
              if structure_type ∈ categoryKeys then
                let text := pySlice content sb eb
                if stripTruthy text then
                  st.add structure_type (mkSMatch content (.mk k sb eb sr er cs))
                else st
              else st
          | none => st
        traverseForest content file_extension cs (depth + 1) st1

/-- `for child in node.children: traverse(child, depth + 1)`. -/
def traverseForest (content file_extension : String) :
    PForest → Nat → Structures → Structures
  | .nil, _, st => st
  | .cons n f, depth, st =>
      traverseForest content file_extension f depth
        (traverseNode content file_extension n depth st)

end

/-- `ASTChunker._extract_structures` (ast_chunker.py lines 116-153). -/
def extractStructures (content file_extension : String) (root : PNode) : Structures :=
  traverseNode content file_extension root 0 emptyStructures

/-- `ASTChunker._format_chunk` (ast_chunker.py lines 309-322); the
`file_extension` argument is taken but unused, as in the source. -/
def formatChunk (s : SMatch) (structure_type _file_extension : String) : String :=
  let header := "// " ++ pyUpper structure_type ++ ": Lines " ++
    toString s.start_line ++ "-" ++ toString s.end_line ++ "\n"
  let code := s.text
  let footer := "\n// End of " ++ structure_type ++ " (AST chunk)"
  header ++ code ++ footer

/-- The pure part of `ASTChunker._chunk_with_ast` (ast_chunker.py lines 89-114),
given the parsed tree's root node. -/
def chunkWithAstCore (content file_extension : String) (root : PNode) : List String :=
  let structures := extractStructures content file_extension root
  let chunks := structures.items.flatMap (fun p =>
    p.2.filterMap (fun s =>
      if stripTruthy s.text then some (formatChunk s p.1 file_extension) else none))
  if chunks = [] then chunkWithFallback content file_extension else chunks

/-- `ASTChunker._chunk_with_ast` with the tree-sitter call made explicit:
`parse` models `self.parsers[file_extension].parse(bytes(content, "utf8"))`
together with any exception the parse or node traversal may raise
(an `Except.error` models a raised exception). -/
def chunkWithAstE (parse : String → String → Except String PNode)
    (content file_extension : String) : Except String (List String) := do
  let root ← parse file_extension content
  pure (chunkWithAstCore content file_extension root)

/-- `ASTChunker.chunk` (ast_chunker.py lines 64-87): the top-level chunk
operation. A returned `Except.error` would model an exception escaping the
method; the `try/except` of lines 80-84 is the `match`. -/
def chunkE (parse : String → String → Except String PNode)
    (content file_extension : String) : Except String (List String) :=
  if !stripTruthy content then Except.ok []
  else if file_extension ∈ supportedExtensions then
    match chunkWithAstE parse content file_extension with
    | Except.ok chunks => Except.ok chunks
    | Except.error _ => Except.ok (chunkWithFallback content file_extension)
  else Except.ok (chunkWithFallback content file_extension)

mutual

/-- The (category, match) pairs the capped traversal records, in pre-order:
the spine of `traverse` with the state made explicit. -/
def preMatches (content file_extension : String) : PNode → Nat → List (String × SMatch)
  | .mk k sb eb sr er cs, depth =>
      if depth > 10 then []
      else
        (match getStructureType k file_extension with
        | some structure_type =>
            if structure_type ∈ categoryKeys then
              if stripTruthy (pySlice content sb eb) then
                [(structure_type, mkSMatch content (.mk k sb eb sr er cs))]
              else []
            else []
        | none => []) ++ preMatchesF content file_extension cs (depth + 1)

/-- `preMatches` over a forest. -/
def preMatchesF (content file_extension : String) : PForest → Nat → List (String × SMatch)
  | .nil, _ => []
  | .cons n f, depth =>
      preMatches content file_extension n depth ++
        preMatchesF content file_extension f depth

end

mutual

/-- The (depth, category, match) triples an uncapped pre-order traversal
would record: the reference against which the depth cap is stated. -/
def deepMatches (content file_extension : String) :
    PNode → Nat → List (Nat × String × SMatch)
  | .mk k sb eb sr er cs, depth =>
      (match getStructureType k file_extension with
      | some structure_type =>
          if structure_type ∈ categoryKeys then
            if stripTruthy (pySlice content sb eb) then
              [(depth, structure_type, mkSMatch content (.mk k sb eb sr er cs))]
            else []
          else []
      | none => []) ++ deepMatchesF content file_extension cs (depth + 1)

/-- `deepMatches` over a forest. -/
def deepMatchesF (content file_extension : String) :
    PForest → Nat → List (Nat × String × SMatch)
  | .nil, _ => []
  | .cons n f, depth =>
      deepMatches content file_extension n depth ++
        deepMatchesF content file_extension f depth

end

mutual

/-- All nodes of a tree, in pre-order. -/
def nodesOf : PNode → List PNode
  | .mk k sb eb sr er cs => .mk k sb eb sr er cs :: nodesOfF cs

/-- All nodes of a forest, in pre-order. -/
def nodesOfF : PForest → List PNode
  | .nil => []
  | .cons n f => nodesOf n ++ nodesOfF f

end

/-- Folding a list of recorded (category, match) pairs into the dict. -/
def applyMatches (st : Structures) (ms : List (String × SMatch)) : Structures :=
  ms.foldl (fun s p => s.add p.1 p.2) st

/-- Modelled from the spec: the chunk ordering §4.7 claims — categories in the
order they were first discovered during traversal, then appearance order within
a category. -/
def discoveryOrderChunks (content file_extension : String) (root : PNode) : List String :=
  let ms := preMatches content file_extension root 0
  let cats := (ms.map (fun p => p.1)).foldl
    (fun acc k => if k ∈ acc then acc else acc ++ [k]) []
  cats.flatMap (fun k =>
    (ms.filter (fun p => p.1 = k)).map (fun p => formatChunk p.2 k file_extension))

/-- One document of the AST-chunk loop of `load_codebase_as_chunked_docs`
(ast_parser.py lines 261-271): the metadata fields the claim speaks about. -/
structure ChunkDoc where
  chunk_type : String
  chunk_index : Nat
  total_chunks : Nat
  chunk_size : Nat
  page_content : String
deriving DecidableEq

/-- The loop `for i, chunk in enumerate(ast_chunks): ... docs.append(...)`
(ast_parser.py lines 262-271). -/
def astDocs (ast_chunks : List String) : List ChunkDoc :=
  ast_chunks.enum.map (fun p =>
    { chunk_type := "ast", chunk_index := p.1, total_chunks := ast_chunks.length,
      chunk_size := p.2.length, page_content := p.2 })

/-- A parser stub for witnesses: every parse attempt raises. -/
def parseNone : String → String → Except String PNode :=
  fun _ _ => Except.error "parse failed"

/-- The synthetic tree used as concrete input for several witnesses:
a root of unmapped kind whose first child is a class node and whose second
child is a function node (so the class is discovered first in pre-order). -/
def cexTree : PNode :=
  .mk "dummy" 0 2 0 0
    (.cons (.mk "class_definition" 0 1 0 0 .nil)
      (.cons (.mk "function_definition" 1 2 0 0 .nil) .nil))

/-- Concrete text whose middle 50-line window is entirely blank:
`"a"`, then 100 newlines, then `"b"`. -/
def cexBlankWindowText : String :=
  "a" ++ String.mk (List.replicate 100 '\n') ++ "b"

/-- Concrete text of 51 non-blank lines (the fallback windower cuts it into
two chunks). -/
def text51 : String := pyJoinLines (List.replicate 51 "a")

/-! ## Lemmas on character lists -/

theorem ic_nil (x : Char) : [x].intercalate ([] : List (List Char)) = [] := by
  simp [List.intercalate]

theorem ic_singleton (x : Char) (a : List Char) : [x].intercalate [a] = a := by
  simp [List.intercalate]

theorem ic_cons₂ (x : Char) (a b : List Char) (t : List (List Char)) :
    [x].intercalate (a :: b :: t) = a ++ x :: [x].intercalate (b :: t) := by
  simp [List.intercalate]

theorem ic_cons_of_ne_nil (x : Char) (a : List Char) (t : List (List Char))
    (h : t ≠ []) : [x].intercalate (a :: t) = a ++ x :: [x].intercalate t := by
  cases t with
  | nil => exact absurd rfl h
  | cons b t => exact ic_cons₂ x a b t

theorem ic_append (x : Char) (l₁ l₂ : List (List Char)) (h₁ : l₁ ≠ []) (h₂ : l₂ ≠ []) :
    [x].intercalate (l₁ ++ l₂) = [x].intercalate l₁ ++ x :: [x].intercalate l₂ := by
  induction l₁ with
  | nil => exact absurd rfl h₁
  | cons a l₁ ih =>
      cases l₁ with
      | nil => simpa [ic_singleton] using ic_cons_of_ne_nil x a l₂ h₂
      | cons b l₁ =>
          rw [List.cons_append, ic_cons_of_ne_nil x a ((b :: l₁) ++ l₂) (by simp),
            ih (by simp), ic_cons₂, List.append_assoc]
          simp

theorem mem_ic_of_mem (x : Char) (c : Char) (l : List Char) (L : List (List Char))
    (hl : l ∈ L) (hc : c ∈ l) : c ∈ [x].intercalate L := by
  induction L with
  | nil => cases hl
  | cons a L ih =>
      cases List.mem_cons.mp hl with
      | inl h =>
          subst h
          cases L with
          | nil => simpa [ic_singleton] using hc
          | cons b L => rw [ic_cons₂]; exact List.mem_append.mpr (Or.inl hc)
      | inr h =>
          have hL : L ≠ [] := List.ne_nil_of_mem h
          rw [ic_cons_of_ne_nil x a L hL]
          exact List.mem_append.mpr (Or.inr (List.mem_cons.mpr (Or.inr (ih h))))

theorem mem_ic (x : Char) (c : Char) (L : List (List Char))
    (hc : c ∈ [x].intercalate L) : c = x ∨ ∃ l ∈ L, c ∈ l := by
  induction L with
  | nil => rw [ic_nil] at hc; cases hc
  | cons a L ih =>
      cases L with
      | nil =>
          rw [ic_singleton] at hc
          exact Or.inr ⟨a, List.mem_cons_self a _, hc⟩
      | cons b L =>
          rw [ic_cons₂] at hc
          rcases List.mem_append.mp hc with h | h
          · exact Or.inr ⟨a, List.mem_cons_self a _, h⟩
          · rcases List.mem_cons.mp h with h | h
            · exact Or.inl h
            · rcases ih h with h | ⟨l, hl, hcl⟩
              · exact Or.inl h
              · exact Or.inr ⟨l, List.mem_cons.mpr (Or.inr hl), hcl⟩

theorem ic_flatten (x : Char) (WS : List (List (List Char)))
    (h : ∀ w ∈ WS, w ≠ []) :
    [x].intercalate (WS.map (fun w => [x].intercalate w)) =
      [x].intercalate WS.flatten := by
  induction WS with
  | nil => simp
  | cons w WS ih =>
      cases WS with
      | nil => simp [ic_singleton]
      | cons w₂ WS₂ =>
          have hw : w ≠ [] := h w (List.mem_cons_self _ _)
          have hrest : ∀ u ∈ w₂ :: WS₂, u ≠ [] :=
            fun u hu => h u (List.mem_cons.mpr (Or.inr hu))
          have hflat : (w₂ :: WS₂).flatten ≠ [] := by
            have hw₂ : w₂ ≠ [] := hrest w₂ (List.mem_cons_self _ _)
            simp only [List.flatten_cons]
            exact fun hcontra => hw₂ (List.append_eq_nil.mp hcontra).1
          rw [List.map_cons, ic_cons_of_ne_nil x _ _ (by simp), ih hrest]
          conv_rhs => rw [List.flatten_cons]
          rw [ic_append x w _ hw hflat]

/-! ## Bridges between the string model and character lists -/

theorem data_pyJoinLines (l : List String) :
    (pyJoinLines l).data = ['\n'].intercalate (l.map String.data) := rfl

theorem pyJoinLines_pySplitLines (s : String) : pyJoinLines (pySplitLines s) = s := by
  apply String.ext
  rw [data_pyJoinLines, pySplitLines, List.map_map]
  have : (String.data ∘ fun l => String.mk l) = id := rfl
  rw [this, List.map_id]
  exact List.intercalate_splitOn s.data '\n'

theorem flatten_map_data (ws : List (List String)) :
    (ws.map (fun w => w.map String.data)).flatten = ws.flatten.map String.data := by
  rw [List.map_flatten]

theorem stripTruthy_pyJoinLines_of_mem (w : List String) (line : String)
    (hline : line ∈ w) (hs : stripTruthy line = true) :
    stripTruthy (pyJoinLines w) = true := by
  rw [stripTruthy, List.any_eq_true] at hs ⊢
  rcases hs with ⟨c, hc, hcws⟩
  refine ⟨c, ?_, hcws⟩
  rw [data_pyJoinLines]
  exact mem_ic_of_mem '\n' c line.data (w.map String.data)
    (List.mem_map_of_mem String.data hline) hc

theorem exists_nonblank_line (s : String) (hs : stripTruthy s = true) :
    ∃ line ∈ pySplitLines s, stripTruthy line = true := by
  rw [stripTruthy, List.any_eq_true] at hs
  rcases hs with ⟨c, hc, hcws⟩
  have hdata : s.data = ['\n'].intercalate (s.data.splitOn '\n') :=
    (List.intercalate_splitOn s.data '\n').symm
  rw [hdata] at hc
  rcases mem_ic '\n' c _ hc with h | ⟨l, hl, hcl⟩
  · subst h; simp at hcws
  · refine ⟨String.mk l, List.mem_map_of_mem _ hl, ?_⟩
    rw [stripTruthy, List.any_eq_true]
    exact ⟨c, hcl, hcws⟩

theorem stripFallbackMarker_append (file_extension body : String) :
    stripFallbackMarker file_extension (fallbackMarker file_extension ++ body) = body := by
  apply String.ext
  rw [stripFallbackMarker, String.data_drop, String.data_append]
  have hlen : (fallbackMarker file_extension).length =
      (fallbackMarker file_extension).data.length := rfl
  rw [hlen, List.drop_left]

/-! ## Lemmas on the fallback loop -/

theorem fallbackLoop_acc (file_extension : String) (lines : List String) :
    ∀ cur acc, fallbackLoop file_extension lines cur acc =
      acc ++ fallbackLoop file_extension lines cur [] := by
  induction lines with
  | nil =>
      intro cur acc
      simp only [fallbackLoop]
      split
      · split <;> simp
      · simp
  | cons line rest ih =>
      intro cur acc
      simp only [fallbackLoop]
      split
      · conv_rhs => rw [ih]
        rw [ih]
        by_cases hP : stripTruthy (pyJoinLines (cur ++ [line])) = true <;> simp [hP]
      · exact ih _ acc

theorem windowsLoop_acc (lines : List String) :
    ∀ cur acc, windowsLoop lines cur acc = acc ++ windowsLoop lines cur [] := by
  induction lines with
  | nil =>
      intro cur acc
      simp only [windowsLoop]
      split <;> simp
  | cons line rest ih =>
      intro cur acc
      simp only [windowsLoop]
      split
      · rw [ih _ (acc ++ _), ih _ ([] ++ _)]
        simp
      · exact ih _ acc

theorem fallbackLoop_eq_filterMap (file_extension : String) (lines : List String) :
    ∀ cur, fallbackLoop file_extension lines cur [] =
      (windowsLoop lines cur []).filterMap (mkFallbackChunk file_extension) := by
  induction lines with
  | nil =>
      intro cur
      simp only [fallbackLoop, windowsLoop, mkFallbackChunk]
      split
      · split <;> simp_all [mkFallbackChunk]
      · simp
  | cons line rest ih =>
      intro cur
      simp only [fallbackLoop, windowsLoop]
      split
      · rw [fallbackLoop_acc, windowsLoop_acc, List.filterMap_append, ih []]
        simp only [List.nil_append]
        congr 1
        simp only [List.filterMap_cons, List.filterMap_nil, mkFallbackChunk]
        split <;> simp
      · exact ih _

theorem windowsLoop_flatten (lines : List String) :
    ∀ cur acc, (windowsLoop lines cur acc).flatten = acc.flatten ++ cur ++ lines := by
  induction lines with
  | nil =>
      intro cur acc
      simp only [windowsLoop]
      split
      · simp
      · simp_all
  | cons line rest ih =>
      intro cur acc
      simp only [windowsLoop]
      split
      · rw [ih]; simp
      · rw [ih]; simp

theorem windowsLoop_ne_nil_mem (lines : List String) :
    ∀ cur acc, (∀ w ∈ acc, w ≠ []) → ∀ w ∈ windowsLoop lines cur acc, w ≠ [] := by
  induction lines with
  | nil =>
      intro cur acc hacc w hw
      simp only [windowsLoop] at hw
      split at hw
      · rcases List.mem_append.mp hw with h | h
        · exact hacc w h
        · rcases List.mem_singleton.mp h with rfl
          assumption
      · exact hacc w hw
  | cons line rest ih =>
      intro cur acc hacc w hw
      simp only [windowsLoop] at hw
      split at hw
      · refine ih _ _ ?_ w hw
        intro u hu
        rcases List.mem_append.mp hu with h | h
        · exact hacc u h
        · rcases List.mem_singleton.mp h with rfl
          simp
      · exact ih _ _ hacc w hw

theorem fallbackWindows_flatten (content : String) :
    (fallbackWindows content).flatten = pySplitLines content := by
  rw [fallbackWindows, windowsLoop_flatten]
  simp

theorem fallbackWindows_ne_nil_mem (content : String) :
    ∀ w ∈ fallbackWindows content, w ≠ [] :=
  windowsLoop_ne_nil_mem _ _ _ (by simp)

theorem fallbackChunks_eq (content file_extension : String) :
    fallbackLoop file_extension (pySplitLines content) [] [] =
      (fallbackWindows content).filterMap (mkFallbackChunk file_extension) :=
  fallbackLoop_eq_filterMap file_extension (pySplitLines content) []

theorem chunkWithFallback_ne_nil (content file_extension : String) :
    chunkWithFallback content file_extension ≠ [] := by
  rw [chunkWithFallback]
  split
  · assumption
  · simp

theorem fallbackChunks_ne_nil_of_nonblank (content file_extension : String)
    (h : stripTruthy content = true) :
    fallbackLoop file_extension (pySplitLines content) [] [] ≠ [] := by
  rcases exists_nonblank_line content h with ⟨line, hline, hstrip⟩
  rw [← fallbackWindows_flatten] at hline
  rcases List.mem_flatten.mp hline with ⟨w, hw, hlw⟩
  have hjoin : stripTruthy (pyJoinLines w) = true :=
    stripTruthy_pyJoinLines_of_mem w line hlw hstrip
  have hmk : mkFallbackChunk file_extension w =
      some (fallbackMarker file_extension ++ pyJoinLines w) := by
    rw [mkFallbackChunk]
    simp [hjoin]
  rw [fallbackChunks_eq]
  exact List.ne_nil_of_mem (List.mem_filterMap.mpr ⟨w, hw, hmk⟩)

theorem chunkWithFallback_eq_of_nonblank (content file_extension : String)
    (h : stripTruthy content = true) :
    chunkWithFallback content file_extension =
      (fallbackWindows content).filterMap (mkFallbackChunk file_extension) := by
  rw [chunkWithFallback]
  split
  · exact fallbackChunks_eq content file_extension
  · exact absurd (fallbackChunks_ne_nil_of_nonblank content file_extension h) (by simp_all)

theorem fallbackChunk_marker (content file_extension : String)
    (h : stripTruthy content = true) :
    ∀ ch ∈ chunkWithFallback content file_extension,
      ∃ body, ch = fallbackMarker file_extension ++ body := by
  intro ch hch
  rw [chunkWithFallback_eq_of_nonblank content file_extension h] at hch
  rcases List.mem_filterMap.mp hch with ⟨w, _, hmk⟩
  rw [mkFallbackChunk] at hmk
  by_cases hs : stripTruthy (pyJoinLines w) = true
  · simp only [hs, if_pos] at hmk
    exact ⟨pyJoinLines w, (Option.some_inj.mp hmk).symm⟩
  · simp [hs] at hmk

theorem pySplitLines_ne_nil (content : String) : pySplitLines content ≠ [] := by
  rw [pySplitLines]
  intro hcontra
  exact List.splitOnP_ne_nil _ content.data (List.map_eq_nil_iff.mp hcontra)

theorem fallbackWindows_ne_nil (content : String) : fallbackWindows content ≠ [] := by
  intro hcontra
  have := fallbackWindows_flatten content
  rw [hcontra] at this
  exact pySplitLines_ne_nil content this.symm

theorem fallback_reconstruct (content file_extension : String)
    (h : ∀ w ∈ fallbackWindows content, stripTruthy (pyJoinLines w) = true) :
    pyJoinLines ((chunkWithFallback content file_extension).map
      (stripFallbackMarker file_extension)) = content := by
  have hchunks : (fallbackWindows content).filterMap (mkFallbackChunk file_extension) =
      (fallbackWindows content).map
        (fun w => fallbackMarker file_extension ++ pyJoinLines w) := by
    rw [List.filterMap_congr (g := fun w =>
        some (fallbackMarker file_extension ++ pyJoinLines w))
      (fun w hw => by rw [mkFallbackChunk]; simp [h w hw])]
    exact congrFun (List.filterMap_eq_map _) _
  have hne : fallbackLoop file_extension (pySplitLines content) [] [] ≠ [] := by
    rw [fallbackChunks_eq, hchunks]
    simpa using fallbackWindows_ne_nil content
  have hres : chunkWithFallback content file_extension =
      (fallbackWindows content).map
        (fun w => fallbackMarker file_extension ++ pyJoinLines w) := by
    rw [chunkWithFallback]
    split
    · rw [fallbackChunks_eq, hchunks]
    · simp_all
  rw [hres, List.map_map]
  have hmaps : ((fun w => fallbackMarker file_extension ++ pyJoinLines w) · |>
      (stripFallbackMarker file_extension ·)) = pyJoinLines := by
    funext w
    exact stripFallbackMarker_append file_extension (pyJoinLines w)
  have hcomp : (stripFallbackMarker file_extension ∘
      fun w => fallbackMarker file_extension ++ pyJoinLines w) =
      (fun w => pyJoinLines w) := by
    funext w
    exact stripFallbackMarker_append file_extension (pyJoinLines w)
  rw [hcomp]
  apply String.ext
  rw [data_pyJoinLines, List.map_map]
  have hdup : (String.data ∘ fun w => pyJoinLines w) =
      fun w => ['\n'].intercalate (w.map String.data) := rfl
  rw [hdup]
  have hWS : (fallbackWindows content).map
      (fun w => ['\n'].intercalate (w.map String.data)) =
      ((fallbackWindows content).map (fun w => w.map String.data)).map
        (fun ws => ['\n'].intercalate ws) := by
    rw [List.map_map]; rfl
  rw [hWS, ic_flatten '\n' _ ?hne]
  case hne =>
    intro ws hws
    rcases List.mem_map.mp hws with ⟨w, hw, rfl⟩
    have := fallbackWindows_ne_nil_mem content w hw
    simpa using this
  rw [flatten_map_data, fallbackWindows_flatten]
  have : content = pyJoinLines (pySplitLines content) :=
    (pyJoinLines_pySplitLines content).symm
  conv_rhs => rw [this]
  rfl

/-! ## Lemmas on the structures dict -/

theorem add_items (st : Structures) (t : String) (m : SMatch) :
    (st.add t m).items =
      st.items.map (fun p => if p.1 = t then (p.1, p.2 ++ [m]) else p) := by
  rw [Structures.add]
  split_ifs with h1 h2 h3 h4 h5 h6 h7 h8
  · subst h1; simp [Structures.items]
  · subst h2; simp [Structures.items, Ne.symm h1]
  · subst h3; simp [Structures.items, Ne.symm h1, Ne.symm h2]
  · subst h4; simp [Structures.items, Ne.symm h1, Ne.symm h2, Ne.symm h3]
  · subst h5; simp [Structures.items, Ne.symm h1, Ne.symm h2, Ne.symm h3, Ne.symm h4]
  · subst h6
    simp [Structures.items, Ne.symm h1, Ne.symm h2, Ne.symm h3, Ne.symm h4, Ne.symm h5]
  · subst h7
    simp [Structures.items, Ne.symm h1, Ne.symm h2, Ne.symm h3, Ne.symm h4, Ne.symm h5,
      Ne.symm h6]
  · subst h8
    simp [Structures.items, Ne.symm h1, Ne.symm h2, Ne.symm h3, Ne.symm h4, Ne.symm h5,
      Ne.symm h6, Ne.symm h7]
  · simp [Structures.items, Ne.symm h1, Ne.symm h2, Ne.symm h3, Ne.symm h4, Ne.symm h5,
      Ne.symm h6, Ne.symm h7, Ne.symm h8]

theorem applyMatches_nil (st : Structures) : applyMatches st [] = st := rfl

theorem applyMatches_cons (st : Structures) (p : String × SMatch)
    (ms : List (String × SMatch)) :
    applyMatches st (p :: ms) = applyMatches (st.add p.1 p.2) ms := rfl

theorem applyMatches_append (st : Structures) (a b : List (String × SMatch)) :
    applyMatches st (a ++ b) = applyMatches (applyMatches st a) b :=
  List.foldl_append _ _ a b

theorem items_applyMatches (ms : List (String × SMatch)) :
    ∀ st : Structures, (applyMatches st ms).items =
      st.items.map (fun p =>
        (p.1, p.2 ++ (ms.filter (fun q => decide (q.1 = p.1))).map (fun q => q.2))) := by
  induction ms with
  | nil =>
      intro st
      simp only [applyMatches_nil, List.filter_nil, List.map_nil, List.append_nil]
      conv_lhs => rw [show st.items = st.items.map id from (List.map_id _).symm]
      rfl
  | cons q ms ih =>
      intro st
      rw [applyMatches_cons, ih, add_items, List.map_map]
      refine List.map_congr_left (fun p _ => ?_)
      simp only [Function.comp_apply, List.filter_cons]
      by_cases h : p.1 = q.1
      · simp [h, List.append_assoc]
      · have h2 : ¬ q.1 = p.1 := fun hc => h hc.symm
        simp [h, h2]

/-! ## Traversal characterization -/

mutual

theorem traverseNode_eq_apply (c e : String) (n : PNode) (d : Nat) (st : Structures) :
    traverseNode c e n d st = applyMatches st (preMatches c e n d) := by
  cases n with
  | mk k sb eb sr er cs =>
      by_cases hd : d > 10
      · rw [traverseNode, preMatches, if_pos hd, if_pos hd, applyMatches_nil]
      · rw [traverseNode, preMatches, if_neg hd, if_neg hd, applyMatches_append]
        cases hg : getStructureType k e with
        | none => exact traverseForest_eq_apply c e cs (d + 1) st
        | some t =>
            by_cases hmem : t ∈ categoryKeys
            · by_cases hstrip : stripTruthy (pySlice c sb eb) = true
              · simp only [hmem, hstrip, if_pos, if_true]
                exact traverseForest_eq_apply c e cs (d + 1) _
              · simp only [hmem, hstrip, if_pos, Bool.false_eq_true, if_false]
                exact traverseForest_eq_apply c e cs (d + 1) st
            · simp only [hmem, if_false]
              exact traverseForest_eq_apply c e cs (d + 1) st

theorem traverseForest_eq_apply (c e : String) (f : PForest) (d : Nat) (st : Structures) :
    traverseForest c e f d st = applyMatches st (preMatchesF c e f d) := by
  cases f with
  | nil => rw [traverseForest, preMatchesF, applyMatches_nil]
  | cons n f =>
      rw [traverseForest, preMatchesF, applyMatches_append,
        ← traverseNode_eq_apply c e n d st]
      exact traverseForest_eq_apply c e f d _

end

theorem mkSMatch_eq (c : String) (nd : PNode) :
    mkSMatch c nd =
      { typ := nd.kind, text := pySlice c nd.startByte nd.endByte,
        start_line := nd.startRow + 1, end_line := nd.endRow + 1,
        start_byte := nd.startByte, end_byte := nd.endByte } := by
  cases nd
  rfl

mutual

theorem deepMatches_depth_le (c e : String) (n : PNode) (d : Nat) :
    ∀ p ∈ deepMatches c e n d, d ≤ p.1 := by
  cases n with
  | mk k sb eb sr er cs =>
      intro p hp
      rw [deepMatches] at hp
      rcases List.mem_append.mp hp with h | h
      · rcases hm : getStructureType k e with _ | t <;> rw [hm] at h
        · cases h
        · by_cases hmem : t ∈ categoryKeys
          · by_cases hstrip : stripTruthy (pySlice c sb eb) = true
            · simp only [hmem, hstrip, if_pos, if_true, List.mem_singleton] at h
              subst h
              exact Nat.le_refl d
            · simp [hmem, hstrip] at h
          · simp [hmem] at h
      · exact Nat.le_of_succ_le (deepMatchesF_depth_le c e cs (d + 1) p h)

theorem deepMatchesF_depth_le (c e : String) (f : PForest) (d : Nat) :
    ∀ p ∈ deepMatchesF c e f d, d ≤ p.1 := by
  cases f with
  | nil => intro p hp; rw [deepMatchesF] at hp; cases hp
  | cons n f =>
      intro p hp
      rw [deepMatchesF] at hp
      rcases List.mem_append.mp hp with h | h
      · exact deepMatches_depth_le c e n d p h
      · exact deepMatchesF_depth_le c e f d p h

end

mutual

theorem preMatches_eq_filter_deep (c e : String) (n : PNode) (d : Nat) :
    preMatches c e n d =
      ((deepMatches c e n d).filter (fun q => decide (q.1 ≤ 10))).map
        (fun q => q.2) := by
  cases n with
  | mk k sb eb sr er cs =>
      by_cases hd : d > 10
      · rw [preMatches, if_pos hd]
        have hnil : (deepMatches c e (.mk k sb eb sr er cs) d).filter
            (fun q => decide (q.1 ≤ 10)) = [] := by
          rw [List.filter_eq_nil_iff]
          intro p hp
          have := deepMatches_depth_le c e (.mk k sb eb sr er cs) d p hp
          simp only [decide_eq_true_eq]
          omega
        rw [hnil, List.map_nil]
      · rw [preMatches, if_neg hd, deepMatches, List.filter_append, List.map_append,
          preMatchesF_eq_filter_deep c e cs (d + 1)]
        congr 1
        have hdle : (decide (d ≤ 10)) = true := by
          simp only [decide_eq_true_eq]; omega
        rcases hm : getStructureType k e with _ | t
        · simp
        · by_cases hmem : t ∈ categoryKeys
          · by_cases hstrip : stripTruthy (pySlice c sb eb) = true
            · simp [hmem, hstrip, hdle]
            · simp [hmem, hstrip]
          · simp [hmem]

theorem preMatchesF_eq_filter_deep (c e : String) (f : PForest) (d : Nat) :
    preMatchesF c e f d =
      ((deepMatchesF c e f d).filter (fun q => decide (q.1 ≤ 10))).map
        (fun q => q.2) := by
  cases f with
  | nil => rw [preMatchesF, deepMatchesF]; simp
  | cons n f =>
      rw [preMatchesF, deepMatchesF, List.filter_append, List.map_append,
        preMatches_eq_filter_deep c e n d, preMatchesF_eq_filter_deep c e f d]

end

mutual

theorem preMatches_mem_inv (c e : String) (n : PNode) (d : Nat) :
    ∀ p ∈ preMatches c e n d, ∃ nd ∈ nodesOf n,
      getStructureType nd.kind e = some p.1 ∧ p.1 ∈ categoryKeys ∧
      stripTruthy (pySlice c nd.startByte nd.endByte) = true ∧
      p.2 = mkSMatch c nd := by
  cases n with
  | mk k sb eb sr er cs =>
      intro p hp
      rw [preMatches] at hp
      by_cases hd : d > 10
      · rw [if_pos hd] at hp; cases hp
      · rw [if_neg hd] at hp
        rcases List.mem_append.mp hp with h | h
        · rcases hm : getStructureType k e with _ | t <;> rw [hm] at h
          · cases h
          · by_cases hmem : t ∈ categoryKeys
            · by_cases hstrip : stripTruthy (pySlice c sb eb) = true
              · simp only [hmem, hstrip, if_pos, if_true, List.mem_singleton] at h
                subst h
                exact ⟨.mk k sb eb sr er cs, by rw [nodesOf]; exact List.mem_cons_self _ _,
                  hm, hmem, hstrip, rfl⟩
              · simp [hmem, hstrip] at h
            · simp [hmem] at h
        · rcases preMatchesF_mem_inv c e cs (d + 1) p h with ⟨nd, hnd, hrest⟩
          exact ⟨nd, by rw [nodesOf]; exact List.mem_cons_of_mem _ hnd, hrest⟩

theorem preMatchesF_mem_inv (c e : String) (f : PForest) (d : Nat) :
    ∀ p ∈ preMatchesF c e f d, ∃ nd ∈ nodesOfF f,
      getStructureType nd.kind e = some p.1 ∧ p.1 ∈ categoryKeys ∧
      stripTruthy (pySlice c nd.startByte nd.endByte) = true ∧
      p.2 = mkSMatch c nd := by
  cases f with
  | nil => intro p hp; rw [preMatchesF] at hp; cases hp
  | cons n f =>
      intro p hp
      rw [preMatchesF] at hp
      rcases List.mem_append.mp hp with h | h
      · rcases preMatches_mem_inv c e n d p h with ⟨nd, hnd, hrest⟩
        exact ⟨nd, by rw [nodesOfF]; exact List.mem_append.mpr (Or.inl hnd), hrest⟩
      · rcases preMatchesF_mem_inv c e f d p h with ⟨nd, hnd, hrest⟩
        exact ⟨nd, by rw [nodesOfF]; exact List.mem_append.mpr (Or.inr hnd), hrest⟩

end

theorem preMatches_text_inv (c e : String) (n : PNode) (d : Nat) :
    ∀ p ∈ preMatches c e n d,
      stripTruthy p.2.text = true ∧
      p.2.text = pySlice c p.2.start_byte p.2.end_byte := by
  intro p hp
  rcases preMatches_mem_inv c e n d p hp with ⟨nd, _, _, _, hstrip, heq⟩
  rw [heq, mkSMatch_eq]
  exact ⟨hstrip, rfl⟩

theorem items_extractStructures (c e : String) (root : PNode) :
    (extractStructures c e root).items =
      categoryKeys.map (fun k =>
        (k, ((preMatches c e root 0).filter
          (fun q => decide (q.1 = k))).map (fun q => q.2))) := by
  rw [extractStructures, traverseNode_eq_apply, items_applyMatches]
  rfl

theorem flatMap_of_map {α β γ : Type} (l : List α) (g : α → β) (f : β → List γ) :
    (l.map g).flatMap f = l.flatMap (fun x => f (g x)) := by
  rw [List.flatMap_def, List.map_map, ← List.flatMap_def]
  rfl

theorem chunkWithAstCore_eq (c e : String) (root : PNode) :
    chunkWithAstCore c e root =
      (fun fm => if fm = [] then chunkWithFallback c e else fm)
        (categoryKeys.flatMap (fun k =>
          ((preMatches c e root 0).filter (fun q => decide (q.1 = k))).map
            (fun q => formatChunk q.2 k e))) := by
  rw [chunkWithAstCore, items_extractStructures, flatMap_of_map]
  have hcongr : ∀ k : String,
      (((preMatches c e root 0).filter (fun q => decide (q.1 = k))).map
        (fun q => q.2)).filterMap (fun s =>
          if stripTruthy s.text = true then some (formatChunk s k e) else none) =
      ((preMatches c e root 0).filter (fun q => decide (q.1 = k))).map
        (fun q => formatChunk q.2 k e) := by
    intro k
    rw [List.filterMap_map]
    rw [List.filterMap_congr (g := fun q => some (formatChunk q.2 k e))
      (fun q hq => by
        have hmem : q ∈ preMatches c e root 0 := List.mem_of_mem_filter hq
        have := (preMatches_text_inv c e root 0 q hmem).1
        simp [Function.comp, this])]
    exact congrFun (List.filterMap_eq_map _) _
  simp only [hcongr]

theorem chunkWithAstCore_ne_nil (c e : String) (root : PNode) :
    chunkWithAstCore c e root ≠ [] := by
  rw [chunkWithAstCore]
  split
  · exact chunkWithFallback_ne_nil c e
  · assumption

/-! ## Lemmas on the top-level chunk operation -/

theorem chunkE_blank (parse : String → String → Except String PNode)
    (content file_extension : String) (h : stripTruthy content = false) :
    chunkE parse content file_extension = Except.ok [] := by
  rw [chunkE, h]
  rfl

theorem chunkE_unsupported (parse : String → String → Except String PNode)
    (content file_extension : String) (h : stripTruthy content = true)
    (hext : file_extension ∉ supportedExtensions) :
    chunkE parse content file_extension =
      Except.ok (chunkWithFallback content file_extension) := by
  rw [chunkE, h]
  simp [hext]

theorem chunkE_is_ok (parse : String → String → Except String PNode)
    (content file_extension : String) :
    ∃ l, chunkE parse content file_extension = Except.ok l := by
  rw [chunkE]
  by_cases h : stripTruthy content = true
  · rw [h]
    simp only [Bool.not_true, Bool.false_eq_true, if_false]
    split
    · rcases chunkWithAstE parse content file_extension with _ | l
      · exact ⟨_, rfl⟩
      · exact ⟨l, rfl⟩
    · exact ⟨_, rfl⟩
  · rw [Bool.not_eq_true] at h
    rw [h]
    exact ⟨[], rfl⟩

theorem chunkE_ok_ne_nil (parse : String → String → Except String PNode)
    (content file_extension : String) (h : stripTruthy content = true) :
    ∃ l, chunkE parse content file_extension = Except.ok l ∧ l ≠ [] := by
  rw [chunkE, h]
  simp only [Bool.not_true, Bool.false_eq_true, if_false]
  split
  · rcases hast : chunkWithAstE parse content file_extension with err | l
    · exact ⟨_, rfl, chunkWithFallback_ne_nil content file_extension⟩
    · refine ⟨l, rfl, ?_⟩
      rw [chunkWithAstE] at hast
      rcases hp : parse file_extension content with perr | root
      · rw [hp] at hast; cases hast
      · rw [hp] at hast
        have : chunkWithAstCore content file_extension root = l := by
          simpa using hast
        rw [← this]
        exact chunkWithAstCore_ne_nil content file_extension root
  · exact ⟨_, rfl, chunkWithFallback_ne_nil content file_extension⟩

/-! ## Claims -/

/-- C1: for every input string, every extension string and every parse outcome
(including a raised exception, modelled as `Except.error`), the top-level
`ASTChunker.chunk` operation returns a chunk list and never raises past its own
boundary: every failure path is absorbed into the fallback chunk list, so the
result is always `Except.ok`. -/
theorem chunk_never_raises (parse : String → String → Except String PNode)
    (content file_extension : String) :
    ∃ chunks, chunkE parse content file_extension = Except.ok chunks :=
  chunkE_is_ok parse content file_extension

/-- C2: `ASTChunker.chunk` returns a non-empty list exactly when the content is
non-blank; empty or whitespace-only content yields the empty list — never an
error — regardless of the extension and of the parse outcome. -/
theorem chunk_nonempty_iff_nonblank (parse : String → String → Except String PNode)
    (content file_extension : String) :
    ∃ chunks, chunkE parse content file_extension = Except.ok chunks ∧
      (chunks = [] ↔ stripTruthy content = false) := by
  by_cases h : stripTruthy content = true
  · rcases chunkE_ok_ne_nil parse content file_extension h with ⟨l, hok, hne⟩
    exact ⟨l, hok, by simp [hne, h]⟩
  · rw [Bool.not_eq_true] at h
    exact ⟨[], chunkE_blank parse content file_extension h, by simp [h]⟩

/-- C3 counterexample: the fallback windower is NOT content-preserving on every
input. On `"a" ++ 100 newlines ++ "b"` the middle 50-line window is entirely
blank and is dropped (ast_chunker.py line 336), so rejoining the chunk bodies
does not reconstruct the text. -/
theorem fallback_not_content_preserving :
    pyJoinLines ((chunkWithFallback cexBlankWindowText ".txt").map
      (stripFallbackMarker ".txt")) ≠ cexBlankWindowText := by decide

/-- C3 (amended): the fallback windower splits the text into successive windows
of at most 50 lines in order, but drops any window whose text is entirely
whitespace; whenever no window is entirely whitespace, concatenating the chunk
bodies (markers removed) with newlines reconstructs the original text exactly. -/
theorem fallback_content_preserving (content file_extension : String)
    (h : ∀ w ∈ fallbackWindows content, stripTruthy (pyJoinLines w) = true) :
    pyJoinLines ((chunkWithFallback content file_extension).map
      (stripFallbackMarker file_extension)) = content :=
  fallback_reconstruct content file_extension h

/-- C3 witness: the amended theorem applied at the concrete input `"a\nb"`. -/
theorem fallback_content_preserving_witness :
    (∀ w ∈ fallbackWindows "a\nb", stripTruthy (pyJoinLines w) = true) ∧
    pyJoinLines ((chunkWithFallback "a\nb" ".txt").map (stripFallbackMarker ".txt")) =
      "a\nb" :=
  ⟨by decide, fallback_content_preserving "a\nb" ".txt" (by decide)⟩

/-- C4: the tree walker's traversal is depth-capped at 10 levels: for every
tree, the structures dict records exactly the matches of the uncapped pre-order
collection whose node depth (root at depth 0) is at most 10 — so no recorded
match references a node at depth greater than the cap, even on deeper trees. -/
theorem extract_structures_depth_capped (content file_extension : String)
    (root : PNode) :
    (extractStructures content file_extension root).items =
      categoryKeys.map (fun k =>
        (k, (((deepMatches content file_extension root 0).filter
          (fun q => decide (q.1 ≤ 10))).filter
            (fun q => decide (q.2.1 = k))).map (fun q => q.2.2))) := by
  rw [items_extractStructures]
  refine List.map_congr_left (fun k _ => ?_)
  rw [preMatches_eq_filter_deep, List.filter_map]
  rw [List.map_map]
  rfl

/-- C5 counterexample: chunk order on the AST path is NOT the order in which
categories were discovered during traversal. In `cexTree` the class node is
discovered before the function node, yet the function chunk is emitted first,
because the structures dict iterates in its fixed literal key order. -/
theorem ast_order_not_discovery_order :
    chunkWithAstCore "cf" ".py" cexTree ≠ discoveryOrderChunks "cf" ".py" cexTree := by
  decide

/-- C5 (amended): when the AST path produces chunks, matches are formatted
grouped by category in the fixed dict-literal key order (functions, classes,
modules, interfaces, enums, constants, imports, comments), and within each
category in pre-order appearance order; if no chunk results the fallback
windower output is returned instead. -/
theorem ast_order_fixed_category_order (content file_extension : String)
    (root : PNode) :
    chunkWithAstCore content file_extension root =
      (fun fm => if fm = [] then chunkWithFallback content file_extension else fm)
        (categoryKeys.flatMap (fun k =>
          ((preMatches content file_extension root 0).filter
            (fun q => decide (q.1 = k))).map
              (fun q => formatChunk q.2 k file_extension))) :=
  chunkWithAstCore_eq content file_extension root

/-- C6 counterexample: Rust `impl_item` — the one node kind the grammar tables
map to two categories — is NOT classified as the type/class category. -/
theorem rust_impl_item_not_classes :
    getStructureType "impl_item" ".rs" ≠ some "classes" := by decide

/-- C6 (amended): for Rust `impl_item`, which appears in both the function-like
list and the type-like list of `_get_rust_structure_type`, the classifier
returns the function category: the function-like branch is checked first and
wins. -/
theorem rust_impl_item_functions :
    getStructureType "impl_item" ".rs" = some "functions" := by decide

/-- C7 counterexample: for a 51-line file under an unknown extension the chunk
operation yields two chunks, so every doc's `total_chunks` is 2 and the sum of
totals is 4, which differs from `len(result) = 2`: the claimed identity
`sum(chunk.total) = len(result)` fails whenever a file yields two or more
chunks. -/
theorem doc_total_sum_counterexample :
    ((astDocs ((chunkE parseNone text51 ".unknownext").toOption.getD [])).map
      (fun d => d.total_chunks)).sum ≠
      (astDocs ((chunkE parseNone text51 ".unknownext").toOption.getD [])).length := by
  decide

/-- C7 (amended): the chunk indices are the dense 0-based sequence
`0..len(result)-1`, every doc's `total_chunks` equals the count of chunks the
strategy produced for the file, and hence the sum of the totals is
`len(result)^2` (it equals `len(result)` only for files with at most one
chunk). -/
theorem doc_indices_dense_totals (ast_chunks : List String) :
    (astDocs ast_chunks).map (fun d => d.chunk_index) =
      List.range ast_chunks.length ∧
    (astDocs ast_chunks).map (fun d => d.total_chunks) =
      List.replicate ast_chunks.length ast_chunks.length ∧
    ((astDocs ast_chunks).map (fun d => d.total_chunks)).sum =
      ast_chunks.length * ast_chunks.length := by
  refine ⟨?_, ?_, ?_⟩
  · rw [astDocs, List.map_map]
    exact List.enum_map_fst ast_chunks
  · rw [astDocs, List.map_map]
    have : ast_chunks.enum.map ((fun d : ChunkDoc => d.total_chunks) ∘ fun p =>
        { chunk_type := "ast", chunk_index := p.1, total_chunks := ast_chunks.length,
          chunk_size := p.2.length, page_content := p.2 }) =
        ast_chunks.enum.map (fun _ => ast_chunks.length) := rfl
    rw [this, List.map_const']
    rw [List.enum_length]
  · rw [astDocs, List.map_map]
    have : ast_chunks.enum.map ((fun d : ChunkDoc => d.total_chunks) ∘ fun p =>
        { chunk_type := "ast", chunk_index := p.1, total_chunks := ast_chunks.length,
          chunk_size := p.2.length, page_content := p.2 }) =
        ast_chunks.enum.map (fun _ => ast_chunks.length) := rfl
    rw [this, List.map_const', List.enum_length, List.sum_replicate, smul_eq_mul]

/-- C8: for every extension outside the parser table and every non-blank
content, the chunk operation returns exactly the fallback windower output — a
value independent of any parse function, so grammar resolution and parsing are
never attempted — and that output has at least one chunk, every one carrying
the fallback marker prefix. -/
theorem unknown_extension_fallback (parse : String → String → Except String PNode)
    (content file_extension : String)
    (hext : file_extension ∉ supportedExtensions) (h : stripTruthy content = true) :
    chunkE parse content file_extension =
      Except.ok (chunkWithFallback content file_extension) ∧
    chunkWithFallback content file_extension ≠ [] ∧
    ∀ ch ∈ chunkWithFallback content file_extension,
      ∃ body, ch = fallbackMarker file_extension ++ body :=
  ⟨chunkE_unsupported parse content file_extension h hext,
   chunkWithFallback_ne_nil content file_extension,
   fallbackChunk_marker content file_extension h⟩

/-- C8 witness: the theorem applied at extension `.unknownext` and content
`"x"`, with a parse function that always raises. -/
theorem unknown_extension_fallback_witness :
    ((".unknownext" ∉ supportedExtensions) ∧ stripTruthy "x" = true) ∧
    (chunkE parseNone "x" ".unknownext" =
        Except.ok (chunkWithFallback "x" ".unknownext") ∧
      chunkWithFallback "x" ".unknownext" ≠ [] ∧
      ∀ ch ∈ chunkWithFallback "x" ".unknownext",
        ∃ body, ch = fallbackMarker ".unknownext" ++ body) :=
  ⟨⟨by decide, by decide⟩,
   unknown_extension_fallback parseNone "x" ".unknownext" (by decide) (by decide)⟩

/-- C9: every match recorded in the structures dict under key `k` comes from a
tree node `nd`, and its formatted chunk text is exactly a one-line header with
the upper-cased category and the 1-based start/end source lines (`row + 1`),
followed by the verbatim source slice of the match's byte span, followed by a
one-line footer marking the end of the structural unit. -/
theorem format_chunk_shape (content file_extension : String) (root : PNode)
    (k : String) (ms : List SMatch) (m : SMatch)
    (hk : (k, ms) ∈ (extractStructures content file_extension root).items)
    (hm : m ∈ ms) :
    ∃ nd ∈ nodesOf root,
      m = mkSMatch content nd ∧
      formatChunk m k file_extension =
        "// " ++ pyUpper k ++ ": Lines " ++ toString (nd.startRow + 1) ++ "-" ++
          toString (nd.endRow + 1) ++ "\n" ++
          pySlice content nd.startByte nd.endByte ++
          "\n// End of " ++ k ++ " (AST chunk)" := by
  rw [items_extractStructures] at hk
  rcases List.mem_map.mp hk with ⟨k₂, _, heq⟩
  rw [Prod.mk.injEq] at heq
  obtain ⟨rfl, hms⟩ := heq
  rw [← hms] at hm
  rcases List.mem_map.mp hm with ⟨q, hq, hqm⟩
  have hqmem : q ∈ preMatches content file_extension root 0 :=
    List.mem_of_mem_filter hq
  rcases preMatches_mem_inv content file_extension root 0 q hqmem with
    ⟨nd, hnd, _, _, _, hq2⟩
  have hq1 : q.1 = k₂ := by
    have := List.of_mem_filter hq
    simpa using this
  refine ⟨nd, hnd, by rw [← hqm, hq2], ?_⟩
  rw [← hqm, hq2, mkSMatch_eq, formatChunk]
  apply String.ext
  simp [String.data_append]

/-- C9 witness: the theorem applied to the class match of `cexTree`. -/
theorem format_chunk_shape_witness :
    (("classes", [(⟨"class_definition", "c", 1, 1, 0, 1⟩ : SMatch)]) ∈
        (extractStructures "cf" ".py" cexTree).items ∧
      (⟨"class_definition", "c", 1, 1, 0, 1⟩ : SMatch) ∈
        [(⟨"class_definition", "c", 1, 1, 0, 1⟩ : SMatch)]) ∧
    ∃ nd ∈ nodesOf cexTree,
      (⟨"class_definition", "c", 1, 1, 0, 1⟩ : SMatch) = mkSMatch "cf" nd ∧
      formatChunk (⟨"class_definition", "c", 1, 1, 0, 1⟩ : SMatch) "classes" ".py" =
        "// " ++ pyUpper "classes" ++ ": Lines " ++ toString (nd.startRow + 1) ++ "-" ++
          toString (nd.endRow + 1) ++ "\n" ++
          pySlice "cf" nd.startByte nd.endByte ++
          "\n// End of " ++ "classes" ++ " (AST chunk)" :=
  ⟨⟨by decide, by decide⟩,
   format_chunk_shape "cf" ".py" cexTree "classes"
     [(⟨"class_definition", "c", 1, 1, 0, 1⟩ : SMatch)]
     (⟨"class_definition", "c", 1, 1, 0, 1⟩ : SMatch) (by decide) (by decide)⟩

/-- C10: extension dispatch in `ASTChunker.chunk` is case-sensitive exact
string matching: for non-blank content, the upper-cased variant `.PY` of the
supported extension `.py` is not in the parser table and is routed to the
fallback windower, never to the AST path. -/
theorem extension_dispatch_case_sensitive
    (parse : String → String → Except String PNode) (content : String)
    (h : stripTruthy content = true) :
    chunkE parse content ".PY" = Except.ok (chunkWithFallback content ".PY") ∧
    ".PY" ∉ supportedExtensions ∧ ".py" ∈ supportedExtensions :=
  ⟨chunkE_unsupported parse content ".PY" h (by decide), by decide, by decide⟩

/-- C10 witness: the theorem applied at content `"x"` with a parse function
that always raises. -/
theorem extension_dispatch_case_sensitive_witness :
    stripTruthy "x" = true ∧
    (chunkE parseNone "x" ".PY" = Except.ok (chunkWithFallback "x" ".PY") ∧
      ".PY" ∉ supportedExtensions ∧ ".py" ∈ supportedExtensions) :=
  ⟨by decide, extension_dispatch_case_sensitive parseNone "x" (by decide)⟩
